import Mathlib

/-!
Verification of the mermaid-icepanel synchronization core.

This file gives a shallow embedding, in Lean, of the translation,
classification and reconciliation core of the repository:

* the IcePanel data model and the equality/diff engine
  (`internal/api/client.go`: `Object`, `Connection`, `Diagram`,
  `Object.Equal`, `Object.Diff`, `equalInterface`);
* the service classifier
  (`cmd/protoc-gen-icepanel/internal/generator/classifier.go`);
* the descriptor extractor
  (`cmd/protoc-gen-icepanel/internal/generator/generator.go`:
  `processProtoFile`);
* the Mermaid text-grammar parser
  (`internal/parser/parser.go`: the anchored regular expressions,
  `slug`, `addObj`, `addConn`, `ParseMermaid`);
* the remote-call traces of the reconciliation workflows
  (`internal/api/client.go`: `listIDs`, `delAll`, `WipeVersion`,
  `ValidateLandscapeVersion`, `PostDiagram`, `CreateObject`, and
  `cmd/protoc-gen-icepanel/uploader/uploader.go`: `Upload`).

Go maps are embedded as association lists with no duplicate keys;
`interface{}` property values are embedded as JSON scalar values
(the only values the program ever stores are booleans and strings);
machine I/O (HTTP transport, file system) is embedded as an oracle
answering each remote call, respectively as an `Except` input.
-/

namespace MermaidIcePanel

/-! ## JSON scalar values (Go `interface{}` property values)

The program only ever stores booleans and strings in `Props`
(`"external": true` in the parser, `"package": <string>` in the
uploader); numbers and null are included for completeness of the
scalar domain described by the data model. -/

inductive JVal where
  | jnull : JVal
  | jbool (b : Bool) : JVal
  | jint (n : Int) : JVal
  | jstr (s : String) : JVal
deriving DecidableEq, Repr

/-- Embedding of `encoding/json.Marshal` on the scalar domain: a
canonical textual form. `equalInterface` in the source compares the
marshaled bytes of its two arguments. -/
def marshalJ : JVal → String
  | .jnull => "null"
  | .jbool true => "true"
  | .jbool false => "false"
  | .jint n => toString n
  | .jstr s => "\x22" ++ s ++ "\x22"

/-- `equalInterface` (client.go): marshal both values and compare the
bytes. On this scalar domain marshaling never fails. -/
def equalInterface (a b : JVal) : Bool :=
  marshalJ a == marshalJ b

/-! ## The IcePanel data model (client.go) -/

/-- Go map embedded as an association list (key order is the
insertion order; Go map iteration order is irrelevant to every
property proved below). -/
abbrev Props := List (String × JVal)

/-- `api.Object`: an IcePanel object. -/
structure Object where
  Handle : String
  Name : String
  Desc : String
  Typ : String
  Props : Props
deriving DecidableEq, Repr

/-- `api.Connection`: an IcePanel connection. -/
structure Connection where
  Handle : String
  From : String
  To : String
  Label : String
deriving DecidableEq, Repr

/-- `api.Diagram`: an IcePanel diagram. -/
structure Diagram where
  Name : String
  Typ : String
  Objects : List Object
  Connections : List Connection
deriving DecidableEq, Repr

/-- Go map lookup `ps[k]` on the association-list embedding. -/
def lookupProp (ps : Props) (k : String) : Option JVal :=
  match ps with
  | [] => none
  | (k1, v) :: rest => if k = k1 then some v else lookupProp rest k

/-- `Object.Equal` (client.go): logical equality ignoring `Handle`.
`none` stands for a nil `*Object` receiver or argument. -/
def Equal (o other : Option Object) : Bool :=
  match o, other with
  | none, none => true
  | none, some _ => false
  | some _, none => false
  | some a, some b =>
    if a.Name ≠ b.Name ∨ a.Desc ≠ b.Desc ∨ a.Typ ≠ b.Typ then false
    else if a.Props.length ≠ b.Props.length then false
    else a.Props.all fun kv =>
      match lookupProp b.Props kv.1 with
      | none => false
      | some ov => equalInterface kv.2 ov

/-- One side of a diff entry: the `[2]interface{}` cells hold strings
(scalar fields), property values (`none` is the Go nil interface for
an absent key), or object pointers (the `"nil"` sentinel entry). -/
inductive DCell where
  | str (s : String) : DCell
  | jv (v : Option JVal) : DCell
  | obj (o : Option Object) : DCell
deriving DecidableEq, Repr

/-- `Object.Diff` (client.go): the field-level change map, embedded as
an association list of entries `(key, before, after)`. The keys
produced (`"nil"`, `"Name"`, `"Desc"`, `"Type"`, `"Props."++k`) are
pairwise distinct, so the list is a faithful embedding of the Go map. -/
def Diff (o other : Option Object) : List (String × DCell × DCell) :=
  match o, other with
  | none, _ => [("nil", .obj none, .obj other)]
  | some a, none => [("nil", .obj (some a), .obj none)]
  | some a, some b =>
    (if a.Name ≠ b.Name then [("Name", DCell.str a.Name, DCell.str b.Name)] else [])
    ++ (if a.Desc ≠ b.Desc then [("Desc", DCell.str a.Desc, DCell.str b.Desc)] else [])
    ++ (if a.Typ ≠ b.Typ then [("Type", DCell.str a.Typ, DCell.str b.Typ)] else [])
    ++ (a.Props.filterMap fun kv =>
          match lookupProp b.Props kv.1 with
          | none => some ("Props." ++ kv.1, DCell.jv (some kv.2), DCell.jv none)
          | some ov =>
            if equalInterface kv.2 ov then none
            else some ("Props." ++ kv.1, DCell.jv (some kv.2), DCell.jv (some ov)))
    ++ (b.Props.filterMap fun kv =>
          match lookupProp a.Props kv.1 with
          | some _ => none
          | none => some ("Props." ++ kv.1, DCell.jv none, DCell.jv (some kv.2)))

/-! ### Association-list lemmas -/

theorem lookupProp_eq_some_of_mem {ps : Props} {k : String} {v : JVal}
    (hn : (ps.map Prod.fst).Nodup) (hm : (k, v) ∈ ps) :
    lookupProp ps k = some v := by
  induction ps with
  | nil => cases hm
  | cons kv rest ih =>
    simp only [List.map_cons, List.nodup_cons, List.mem_map] at hn
    rcases List.mem_cons.mp hm with h | h
    · simp [lookupProp, ← h]
    · have hk : k ≠ kv.1 := by
        intro he
        exact hn.1 ⟨(k, v), h, by simp [he]⟩
      have hn2 : (rest.map Prod.fst).Nodup := hn.2
      simp [lookupProp, hk, ih hn2 h]

theorem mem_keys_of_lookupProp {ps : Props} {k : String} {v : JVal}
    (h : lookupProp ps k = some v) : k ∈ ps.map Prod.fst := by
  induction ps with
  | nil => simp [lookupProp] at h
  | cons kv rest ih =>
    by_cases he : k = kv.1
    · simp [he]
    · simp only [lookupProp, if_neg he] at h
      simp [List.mem_map] at ih ⊢
      rcases ih h with ⟨x, hx⟩
      exact Or.inr ⟨x, hx⟩

theorem lookupProp_isSome_of_mem_keys {ps : Props} {k : String}
    (h : k ∈ ps.map Prod.fst) : (lookupProp ps k).isSome := by
  induction ps with
  | nil => simp at h
  | cons kv rest ih =>
    by_cases he : k = kv.1
    · simp [lookupProp, he]
    · have h0 : k ∈ kv.1 :: rest.map Prod.fst := by
        simpa only [List.map_cons] using h
      rcases List.mem_cons.mp h0 with h3 | h3
      · exact absurd h3 he
      · simpa [lookupProp, he] using ih h3

/-! ### The diff engine: claims C6 and C10 -/

/-- The first property loop of `Diff`. -/
def diffPropsLeft (a b : Object) : List (String × DCell × DCell) :=
  a.Props.filterMap fun kv =>
    match lookupProp b.Props kv.1 with
    | none => some ("Props." ++ kv.1, DCell.jv (some kv.2), DCell.jv none)
    | some ov =>
      if equalInterface kv.2 ov then none
      else some ("Props." ++ kv.1, DCell.jv (some kv.2), DCell.jv (some ov))

/-- The second property loop of `Diff`. -/
def diffPropsRight (a b : Object) : List (String × DCell × DCell) :=
  b.Props.filterMap fun kv =>
    match lookupProp a.Props kv.1 with
    | some _ => none
    | none => some ("Props." ++ kv.1, DCell.jv none, DCell.jv (some kv.2))

theorem Diff_some_some (a b : Object) :
    Diff (some a) (some b) =
      (if a.Name ≠ b.Name then [("Name", DCell.str a.Name, DCell.str b.Name)] else [])
      ++ (if a.Desc ≠ b.Desc then [("Desc", DCell.str a.Desc, DCell.str b.Desc)] else [])
      ++ (if a.Typ ≠ b.Typ then [("Type", DCell.str a.Typ, DCell.str b.Typ)] else [])
      ++ diffPropsLeft a b ++ diffPropsRight a b := by
  simp [Diff, diffPropsLeft, diffPropsRight]

theorem diffPropsLeft_self (x : Object) (hx : (x.Props.map Prod.fst).Nodup) :
    diffPropsLeft x x = [] := by
  rw [diffPropsLeft, List.filterMap_eq_nil_iff]
  intro kv hkv
  rw [lookupProp_eq_some_of_mem hx hkv]
  simp [equalInterface]

theorem diffPropsRight_subset (a b : Object)
    (h : ∀ k, k ∈ b.Props.map Prod.fst → k ∈ a.Props.map Prod.fst) :
    diffPropsRight a b = [] := by
  rw [diffPropsRight, List.filterMap_eq_nil_iff]
  intro kv hkv
  have hmem : kv.1 ∈ a.Props.map Prod.fst :=
    h kv.1 (List.mem_map.mpr ⟨kv, hkv, rfl⟩)
  have := lookupProp_isSome_of_mem_keys hmem
  rcases Option.isSome_iff_exists.mp this with ⟨v, hv⟩
  rw [hv]

/-- C6: for every Node `x` (a Go map never has duplicate keys, hence
the no-duplicate-keys hypothesis), `Diff(x, x)` is the empty change
map; and diffing against an absent (nil) side yields exactly the one
sentinel entry keyed `"nil"`, not one entry per field. -/
theorem c6_diff_self_empty_and_absent_sentinel (x y : Object)
    (hx : (x.Props.map Prod.fst).Nodup) :
    Diff (some x) (some x) = []
    ∧ Diff none (some y) = [("nil", DCell.obj none, DCell.obj (some y))]
    ∧ Diff (some y) none = [("nil", DCell.obj (some y), DCell.obj none)]
    ∧ Diff none none = [("nil", DCell.obj none, DCell.obj none)] := by
  refine ⟨?_, rfl, rfl, rfl⟩
  rw [Diff_some_some, diffPropsLeft_self x hx, diffPropsRight_subset x x fun k h => h]
  simp

/-- Witness for C6 at a concrete Node. -/
theorem c6_witness :
    Diff (some ⟨"pay", "Payments", "payments svc", "system",
          [("external", JVal.jbool true), ("package", JVal.jstr "billing")]⟩)
        (some ⟨"pay", "Payments", "payments svc", "system",
          [("external", JVal.jbool true), ("package", JVal.jstr "billing")]⟩) = []
    ∧ Diff none (some ⟨"pay", "Payments", "payments svc", "system",
          [("external", JVal.jbool true), ("package", JVal.jstr "billing")]⟩)
        = [("nil", DCell.obj none, DCell.obj (some ⟨"pay", "Payments", "payments svc",
            "system", [("external", JVal.jbool true), ("package", JVal.jstr "billing")]⟩))] := by
  have h := c6_diff_self_empty_and_absent_sentinel
    ⟨"pay", "Payments", "payments svc", "system",
      [("external", JVal.jbool true), ("package", JVal.jstr "billing")]⟩
    ⟨"pay", "Payments", "payments svc", "system",
      [("external", JVal.jbool true), ("package", JVal.jstr "billing")]⟩
    (by decide)
  exact ⟨h.1, h.2.1⟩

theorem diffPropsLeft_eq_nil_iff (a b : Object) :
    diffPropsLeft a b = []
      ↔ ∀ kv ∈ a.Props, ∃ ov, lookupProp b.Props kv.1 = some ov
          ∧ equalInterface kv.2 ov = true := by
  rw [diffPropsLeft, List.filterMap_eq_nil_iff]
  constructor
  · intro h kv hkv
    have := h kv hkv
    rcases hl : lookupProp b.Props kv.1 with _ | ov
    · rw [hl] at this; simp at this
    · rw [hl] at this
      refine ⟨ov, rfl, ?_⟩
      by_cases he : equalInterface kv.2 ov = true
      · exact he
      · exfalso; simp [he] at this
  · intro h kv hkv
    rcases h kv hkv with ⟨ov, hl, he⟩
    simp [hl, he]

theorem diffPropsRight_eq_nil_iff (a b : Object) :
    diffPropsRight a b = []
      ↔ ∀ kv ∈ b.Props, (lookupProp a.Props kv.1).isSome := by
  rw [diffPropsRight, List.filterMap_eq_nil_iff]
  constructor
  · intro h kv hkv
    have := h kv hkv
    rcases hl : lookupProp a.Props kv.1 with _ | v
    · rw [hl] at this; simp at this
    · simp
  · intro h kv hkv
    rcases Option.isSome_iff_exists.mp (h kv hkv) with ⟨v, hv⟩
    rw [hv]

/-- If every key of `a.Props` resolves in `b.Props` and every key of
`b.Props` resolves in `a.Props`, the two key lists (duplicate-free)
are permutations, hence of equal length. -/
theorem props_length_eq_of_mutual_lookup (a b : Object)
    (ha : (a.Props.map Prod.fst).Nodup) (hb : (b.Props.map Prod.fst).Nodup)
    (hab : ∀ kv ∈ a.Props, (lookupProp b.Props kv.1).isSome)
    (hba : ∀ kv ∈ b.Props, (lookupProp a.Props kv.1).isSome) :
    a.Props.length = b.Props.length := by
  have hsub1 : a.Props.map Prod.fst ⊆ b.Props.map Prod.fst := by
    intro k hk
    rcases List.mem_map.mp hk with ⟨kv, hkv, hfst⟩
    rcases Option.isSome_iff_exists.mp (hab kv hkv) with ⟨v, hv⟩
    exact hfst ▸ mem_keys_of_lookupProp hv
  have hsub2 : b.Props.map Prod.fst ⊆ a.Props.map Prod.fst := by
    intro k hk
    rcases List.mem_map.mp hk with ⟨kv, hkv, hfst⟩
    rcases Option.isSome_iff_exists.mp (hba kv hkv) with ⟨v, hv⟩
    exact hfst ▸ mem_keys_of_lookupProp hv
  have hperm := List.Subperm.antisymm (ha.subperm hsub1) (hb.subperm hsub2)
  have := hperm.length_eq
  simpa using this

/-- C10: for non-nil Objects, the boolean `Equal` verdict and the
`Diff` change map always agree: `Equal` returns true exactly when
`Diff` is empty. -/
theorem c10_equal_iff_diff_empty (a b : Object)
    (ha : (a.Props.map Prod.fst).Nodup) (hb : (b.Props.map Prod.fst).Nodup) :
    Equal (some a) (some b) = true ↔ Diff (some a) (some b) = [] := by
  rw [Diff_some_some]
  constructor
  · intro hE
    simp only [Equal] at hE
    by_cases hS : a.Name ≠ b.Name ∨ a.Desc ≠ b.Desc ∨ a.Typ ≠ b.Typ
    · rw [if_pos hS] at hE; cases hE
    · rw [if_neg hS] at hE
      by_cases hL : a.Props.length ≠ b.Props.length
      · rw [if_pos hL] at hE; cases hE
      · rw [if_neg hL] at hE
        push_neg at hS hL
        have hall := List.all_eq_true.mp hE
        have h4 : diffPropsLeft a b = [] := by
          rw [diffPropsLeft_eq_nil_iff]
          intro kv hkv
          have := hall kv hkv
          rcases hl : lookupProp b.Props kv.1 with _ | ov
          · rw [hl] at this; cases this
          · rw [hl] at this; exact ⟨ov, rfl, this⟩
        have hsub1 : a.Props.map Prod.fst ⊆ b.Props.map Prod.fst := by
          intro k hk
          rcases List.mem_map.mp hk with ⟨kv, hkv, hfst⟩
          rcases (diffPropsLeft_eq_nil_iff a b).mp h4 kv hkv with ⟨ov, hl, _⟩
          exact hfst ▸ mem_keys_of_lookupProp hl
        have hperm : List.Perm (a.Props.map Prod.fst) (b.Props.map Prod.fst) :=
          (ha.subperm hsub1).perm_of_length_le (by simpa using hL.ge)
        have h5 : diffPropsRight a b = [] :=
          diffPropsRight_subset a b fun k hk => hperm.mem_iff.mpr hk
        simp [hS.1, hS.2.1, hS.2.2, h4, h5]
  · intro hD
    have hsegs := List.append_eq_nil.mp hD
    have hsegs2 := List.append_eq_nil.mp hsegs.1
    have hsegs3 := List.append_eq_nil.mp hsegs2.1
    have hsegs4 := List.append_eq_nil.mp hsegs3.1
    have hname : a.Name = b.Name := by
      by_cases h : a.Name ≠ b.Name
      · rw [if_pos h] at hsegs4; cases hsegs4.1
      · exact not_not.mp h
    have hdesc : a.Desc = b.Desc := by
      by_cases h : a.Desc ≠ b.Desc
      · rw [if_pos h] at hsegs4; cases hsegs4.2
      · exact not_not.mp h
    have htyp : a.Typ = b.Typ := by
      by_cases h : a.Typ ≠ b.Typ
      · rw [if_pos h] at hsegs3; cases hsegs3.2
      · exact not_not.mp h
    have h4 := (diffPropsLeft_eq_nil_iff a b).mp hsegs2.2
    have h5 := (diffPropsRight_eq_nil_iff a b).mp hsegs.2
    have hlen : a.Props.length = b.Props.length :=
      props_length_eq_of_mutual_lookup a b ha hb
        (fun kv hkv => by rcases h4 kv hkv with ⟨ov, hl, _⟩; rw [hl]; rfl) h5
    simp only [Equal]
    rw [if_neg (by simp [hname, hdesc, htyp]), if_neg (by simp [hlen])]
    rw [List.all_eq_true]
    intro kv hkv
    rcases h4 kv hkv with ⟨ov, hl, he⟩
    rw [hl]
    exact he

/-- Witness for C10 at concrete non-nil Objects. -/
theorem c10_witness :
    Equal (some ⟨"a1", "A", "d", "system", [("external", JVal.jbool true)]⟩)
        (some ⟨"a2", "A", "d", "system", [("external", JVal.jbool true)]⟩) = true
    ∧ Diff (some ⟨"a1", "A", "d", "system", [("external", JVal.jbool true)]⟩)
        (some ⟨"a2", "A", "d", "system", [("external", JVal.jbool true)]⟩) = [] := by
  have h := c10_equal_iff_diff_empty
    ⟨"a1", "A", "d", "system", [("external", JVal.jbool true)]⟩
    ⟨"a2", "A", "d", "system", [("external", JVal.jbool true)]⟩
    (by decide) (by decide)
  exact ⟨by decide, h.mp (by decide)⟩

/-! ## The service classifier (classifier.go): claim C2 -/

/-- `strings.HasPrefix` on character lists. -/
def startsWithL : List Char → List Char → Bool
  | _, [] => true
  | [], _ :: _ => false
  | a :: as, b :: bs => a = b && startsWithL as bs

/-- Substring search on character lists. -/
def containsL : List Char → List Char → Bool
  | [], pat => startsWithL [] pat
  | c :: t, pat => startsWithL (c :: t) pat || containsL t pat

/-- `strings.Contains`. -/
def strContains (s pat : String) : Bool := containsL s.data pat.data

/-- `strings.ToLower` (the program only ever lowercases ASCII text). -/
def strToLower (s : String) : String := ⟨s.data.map Char.toLower⟩

/-- The C4 object type constants of generator.go; the Go type
`C4ObjectType` is a string type, and the empty string is the
classifier's "unknown" sentinel. -/
def C4System : String := "System"

def C4SystemExt : String := "System_Ext"

def C4SystemDb : String := "SystemDb"

def C4SystemBoundary : String := "System_Boundary"

/-- `NewDefaultClassifier().ExternalPatterns`. -/
def ExternalPatterns : List String :=
  ["External", "Ext", "ThirdParty", "Partner", "Provider"]

/-- `NewDefaultClassifier().DatabasePatterns`. -/
def DatabasePatterns : List String :=
  ["Database", "DB", "Repository", "Storage", "Persistence"]

/-- Method `(*ServiceClassifier).ClassifyService` with the default
patterns: name-based classification, database patterns first. -/
def classifyByName (serviceName : String) : String :=
  if DatabasePatterns.any (fun p => strContains serviceName p) then C4SystemDb
  else if ExternalPatterns.any (fun p => strContains serviceName p) then C4SystemExt
  else C4System

/-- `dbTerms` inside `ClassifyBasedOnComment`. -/
def dbTerms : List String := ["database", "persistence", "storage", "repository"]

/-- `extTerms` inside `ClassifyBasedOnComment`. -/
def extTerms : List String :=
  ["external", "third-party", "integration", "external service"]

/-- `(*ServiceClassifier).ClassifyBasedOnComment`: comment-based
classification, database terms first; `""` means unknown. -/
def ClassifyBasedOnComment (comment : String) : String :=
  let lowerComment := strToLower comment
  if dbTerms.any (fun t => strContains lowerComment t) then C4SystemDb
  else if extTerms.any (fun t => strContains lowerComment t) then C4SystemExt
  else ""

/-- Package-level `ClassifyService`: the comment verdict, when known,
short-circuits name-based classification. -/
def ClassifyService (serviceName comment : String) : String :=
  let commentType := ClassifyBasedOnComment comment
  if commentType ≠ "" then commentType
  else classifyByName serviceName

/-- C2 counterexample: `PaymentsDatabaseService` with a comment
containing "external" classifies as `System_Ext`, not `SystemDb` —
the comment check runs before (and short-circuits) the name check, so
the persistence-indicating name does not win. -/
theorem c2_counterexample :
    ClassifyService "PaymentsDatabaseService" "This is an external service"
      = C4SystemExt
    ∧ C4SystemExt ≠ C4SystemDb := by
  constructor
  · decide
  · decide

/-- C2 (amended): for a service whose name contains a
persistence-indicating pattern, an empty comment yields `SystemDb`;
but a comment whose lowercase form contains an external-indicating
term and no persistence-indicating term yields `System_Ext`, because
the comment check precedes the name check. Within each single stage,
persistence terms do precede external terms: a comment containing a
persistence-indicating term yields `SystemDb` whatever else it says. -/
theorem c2_amended_comment_precedes_name (serviceName comment : String)
    (hname : DatabasePatterns.any (fun p => strContains serviceName p) = true) :
    ClassifyService serviceName "" = C4SystemDb
    ∧ (dbTerms.any (fun t => strContains (strToLower comment) t) = false →
        extTerms.any (fun t => strContains (strToLower comment) t) = true →
        ClassifyService serviceName comment = C4SystemExt)
    ∧ (dbTerms.any (fun t => strContains (strToLower comment) t) = true →
        ClassifyService serviceName comment = C4SystemDb) := by
  refine ⟨?_, ?_, ?_⟩
  · have hc : ClassifyBasedOnComment "" = "" := by decide
    simp only [ClassifyService, hc, ne_eq, not_true_eq_false, if_false,
      classifyByName, hname, if_true, reduceIte]
  · intro hdb hext
    have hc : ClassifyBasedOnComment comment = C4SystemExt := by
      simp only [ClassifyBasedOnComment, hdb, hext, if_true, if_false,
        Bool.false_eq_true, reduceIte]
    simp only [ClassifyService, hc]
    rw [if_pos (by decide)]
  · intro hdb
    have hc : ClassifyBasedOnComment comment = C4SystemDb := by
      simp only [ClassifyBasedOnComment, hdb, reduceIte]
    simp only [ClassifyService, hc]
    rw [if_pos (by decide)]

/-- Witness for C2 (amended) at the spec's own example name. -/
theorem c2_amended_witness :
    ClassifyService "PaymentsDatabaseService" "" = C4SystemDb
    ∧ ClassifyService "PaymentsDatabaseService" "calls an external api"
        = C4SystemExt := by
  have h := c2_amended_comment_precedes_name "PaymentsDatabaseService"
    "calls an external api" (by decide)
  exact ⟨h.1, h.2.1 (by decide) (by decide)⟩

/-! ## The descriptor extractor (generator.go): claim C9 -/

/-- A compiled service descriptor, as `processProtoFile` consumes it:
the service's name and its leading documentation comment. -/
structure ProtoService where
  name : String
  comment : String
deriving DecidableEq, Repr

/-- A compiled proto file descriptor: declaring path, package name,
and the services it declares, in declaration order. -/
structure ProtoFile where
  path : String
  pkg : String
  services : List ProtoService
deriving DecidableEq, Repr

/-- `generator.C4Object`. -/
structure C4Object where
  ID : String
  Name : String
  Description : String
  Typ : String
  Technology : String
  Package : String
  IsSpeculative : Bool
deriving DecidableEq, Repr

/-- `determineServiceType` delegates to the package-level classifier. -/
def determineServiceType (serviceName comment : String) : String :=
  ClassifyService serviceName comment

/-- `processProtoFile` (generator.go): one Boundary object per
non-empty package, then one System-family object per service, all
tagged speculative when the declaring path starts with the configured
speculative path (`specPath` embeds `speculativePathPrefix`). -/
def processProtoFile (file : ProtoFile) (specPath : String) : List C4Object :=
  let isSpeculative := specPath != "" && startsWithL file.path.data specPath.data
  (if file.pkg ≠ "" then
    [{ ID := "boundary-" ++ file.pkg, Name := file.pkg,
       Description := "Package: " ++ file.pkg, Typ := C4SystemBoundary,
       Technology := "", Package := file.pkg, IsSpeculative := isSpeculative }]
   else [])
  ++ file.services.map fun s =>
    { ID := "service-" ++ s.name, Name := s.name, Description := s.comment,
      Typ := determineServiceType s.name s.comment, Technology := "",
      Package := file.pkg, IsSpeculative := isSpeculative }

/-- C9: extraction is a deterministic function of the descriptor set
and the speculative-path configuration — two runs over unchanged
input are identical — and every run carries exactly the identifiers
`boundary-<package>` and `service-<service>`, the classifier's type
tags, and the path-derived speculative flag. -/
theorem c9_extraction_deterministic (f : ProtoFile) (specPath : String) :
    processProtoFile f specPath = processProtoFile f specPath
    ∧ (processProtoFile f specPath).map
        (fun o => (o.ID, o.Typ, o.IsSpeculative))
      = (if f.pkg ≠ "" then
          [("boundary-" ++ f.pkg, C4SystemBoundary,
            specPath != "" && startsWithL f.path.data specPath.data)]
         else [])
        ++ f.services.map (fun s =>
            ("service-" ++ s.name, ClassifyService s.name s.comment,
             specPath != "" && startsWithL f.path.data specPath.data)) := by
  refine ⟨rfl, ?_⟩
  by_cases hp : f.pkg ≠ ""
  · simp [processProtoFile, hp, determineServiceType]
  · simp [processProtoFile, hp, determineServiceType]

/-! ## The Mermaid text-grammar parser (parser.go): claims C3, C4, C7

The anchored Go regular expressions of parser.go are embedded as
committed-choice matchers over character lists. For each pattern the
committed reading coincides with the regular expression's leftmost
match semantics: every repeated class `[^x]+` is immediately followed
by the literal `x`, so greedy matching cannot backtrack, and the
optional groups (`(_Ext|Db)?`, `(Bi)?`, the optional description) are
tried in the regular expression's preference order against
alternatives with pairwise distinct next characters. -/

/-- The ASCII white space recognized by Go's `unicode.IsSpace`
(the inputs at hand are ASCII). -/
def isGoWS (c : Char) : Bool :=
  c = ' ' || c = '\t' || c = '\n' || c = '\x0b' || c = '\x0c' || c = '\r'

/-- The character class `\s` of Go's regexp (RE2): `[\t\n\f\r ]`. -/
def isRegexWS (c : Char) : Bool :=
  c = ' ' || c = '\t' || c = '\n' || c = '\x0c' || c = '\r'

/-- `strings.TrimSpace`. -/
def trimGo (l : List Char) : List Char :=
  ((l.dropWhile isGoWS).reverse.dropWhile isGoWS).reverse

/-- Match a literal prefix, returning the rest of the input. -/
def matchLit : List Char → List Char → Option (List Char)
  | [], input => some input
  | _ :: _, [] => none
  | a :: as, b :: bs => if a = b then matchLit as bs else none

/-- The group `([^stop]+)` immediately followed by the literal `stop`,
both consumed; the group must be non-empty. -/
def grabUntil (stop : Char) (l : List Char) : Option (String × List Char) :=
  match l.takeWhile (fun c => c != stop), l.dropWhile (fun c => c != stop) with
  | [], _ => none
  | _, [] => none
  | g, _ :: rest => some (⟨g⟩, rest)

/-- The quoted group `"([^"]+)"`, quotes consumed. -/
def grabQuoted : List Char → Option (String × List Char)
  | '\x22' :: rest => grabUntil '\x22' rest
  | _ => none

/-- The optional description `(?:,\s*"([^"]+)")?` followed by `\)`;
an absent optional group yields the empty submatch, exactly as
`FindStringSubmatch` reports it. -/
def optDescThenParen (l : List Char) : Option (String × List Char) :=
  (match l with
   | ',' :: r1 =>
     match grabQuoted (r1.dropWhile isRegexWS) with
     | some (d, r3) =>
       match r3 with
       | ')' :: r4 => some (d, r4)
       | _ => none
     | none => none
   | _ => none)
  <|>
  (match l with
   | ')' :: r => some ("", r)
   | _ => none)

/-- `rePerson`: `^Person\(([^,]+),\s*"([^"]+)"(?:,\s*"([^"]+)")?\)`. -/
def matchPerson (line : List Char) : Option (String × String × String) :=
  match matchLit "Person(".data line with
  | none => none
  | some r1 =>
    match grabUntil ',' r1 with
    | none => none
    | some (id, r2) =>
      match grabQuoted (r2.dropWhile isRegexWS) with
      | none => none
      | some (name, r4) =>
        match optDescThenParen r4 with
        | none => none
        | some (desc, _) => some (id, name, desc)

/-- `reSystem`: `^System(_Ext|Db)?\(([^,]+),\s*"([^"]+)"(?:,\s*"([^"]+)")?\)`.
Returns `(suffix, id, name, desc)` with suffix `"_Ext"`, `"Db"` or `""`. -/
def matchSystem (line : List Char) : Option (String × String × String × String) :=
  match matchLit "System".data line with
  | none => none
  | some r0 =>
    let sufRest : String × List Char :=
      match matchLit "_Ext".data r0 with
      | some r => ("_Ext", r)
      | none =>
        match matchLit "Db".data r0 with
        | some r => ("Db", r)
        | none => ("", r0)
    match sufRest.2 with
    | '(' :: r2 =>
      match grabUntil ',' r2 with
      | none => none
      | some (id, r3) =>
        match grabQuoted (r3.dropWhile isRegexWS) with
        | none => none
        | some (name, r5) =>
          match optDescThenParen r5 with
          | none => none
          | some (desc, _) => some (sufRest.1, id, name, desc)
    | _ => none

/-- `reBound`: `^System_Boundary\(([^,]+),\s*"([^"]+)"\)`. -/
def matchBound (line : List Char) : Option (String × String) :=
  match matchLit "System_Boundary(".data line with
  | none => none
  | some r1 =>
    match grabUntil ',' r1 with
    | none => none
    | some (id, r2) =>
      match grabQuoted (r2.dropWhile isRegexWS) with
      | none => none
      | some (name, r4) =>
        match r4 with
        | ')' :: _ => some (id, name)
        | _ => none

/-- `reRel`: `^(Bi)?Rel\(([^,]+),\s*([^,]+),\s*"([^"]+)"\)`.
Returns `(bidirectional, from, to, label)`. -/
def matchRel (line : List Char) : Option (Bool × String × String × String) :=
  let biRest : Bool × List Char :=
    match matchLit "Bi".data line with
    | some r => (true, r)
    | none => (false, line)
  match matchLit "Rel(".data biRest.2 with
  | none => none
  | some r1 =>
    match grabUntil ',' r1 with
    | none => none
    | some (fromId, r2) =>
      match grabUntil ',' (r2.dropWhile isRegexWS) with
      | none => none
      | some (toId, r3) =>
        match grabQuoted (r3.dropWhile isRegexWS) with
        | none => none
        | some (label, r5) =>
          match r5 with
          | ')' :: _ => some (biRest.1, fromId, toId, label)
          | _ => none

/-- `reEndBound`: `^}` — the boundary close marker, recognized and
discarded. -/
def matchEndBound (line : List Char) : Bool :=
  match line with
  | '}' :: _ => true
  | _ => false

/-- `strings.ReplaceAll(id, " ", "-")` (the pattern is a single
character, so occurrence replacement is character replacement). -/
def replaceSpaces (l : List Char) : List Char :=
  l.map fun c => if c = ' ' then '-' else c

/-- `slug` (parser.go): `strings.ToLower(strings.ReplaceAll(id, " ", "-"))`. -/
def slug (id : String) : String :=
  ⟨(replaceSpaces id.data).map Char.toLower⟩

/-- `fmt.Sprintf("%04d", n)` for a natural number. -/
def pad4 (n : Nat) : String :=
  let s := toString n
  if s.length < 4 then ⟨List.replicate (4 - s.length) '0'⟩ ++ s else s

/-- `nextHandle` as a function of the post-increment sequence value. -/
def nextHandleStr (seq : Nat) : String := "h" ++ pad4 seq

/-- `mermaidParser`: the parser state. The Go object map is embedded
as an association list in insertion order (the map's iteration order
is not observable in any property proved here). -/
structure MState where
  objs : List (String × Object)
  conns : List Connection
  idSeq : Nat
deriving DecidableEq, Repr

/-- `newMermaidParser()`. -/
def initState : MState := ⟨[], [], 0⟩

/-- Go map lookup `p.objs[id]`. -/
def lookupObj (l : List (String × Object)) (k : String) : Option Object :=
  match l with
  | [] => none
  | (k1, v) :: rest => if k = k1 then some v else lookupObj rest k

/-- `addObj` (parser.go): first declaration wins — an existing
identifier makes the call a no-op. -/
def addObj (st : MState) (id name desc typ : String) : MState :=
  match lookupObj st.objs id with
  | some _ => st
  | none =>
    { st with objs := st.objs ++
        [(id, { Handle := slug id, Name := name, Desc := desc,
                Typ := typ, Props := [] })] }

/-- The assignment `p.objs[m[2]].Props = …`: overwrite the stored
object's property map. -/
def setProps (st : MState) (id : String) (ps : Props) : MState :=
  { st with objs := st.objs.map fun kv =>
      if kv.1 = id then (kv.1, { kv.2 with Props := ps }) else kv }

/-- The `case "_Ext"` branch of `ParseMermaid`: `addObj` followed by
the unconditional `Props` assignment on `p.objs[m[2]]`. -/
def declareExt (st : MState) (id name desc : String) : MState :=
  setProps (addObj st id name desc "system") id [("external", JVal.jbool true)]

/-- `addConn` (parser.go). -/
def addConn (st : MState) (fromId toId label : String) (bidi : Bool) : MState :=
  let seq1 := st.idSeq + 1
  let conns1 := st.conns ++
    [{ Handle := nextHandleStr seq1, From := slug fromId,
       To := slug toId, Label := label }]
  if bidi then
    { objs := st.objs,
      conns := conns1 ++
        [{ Handle := nextHandleStr (seq1 + 1), From := slug toId,
           To := slug fromId, Label := label }],
      idSeq := seq1 + 1 }
  else { objs := st.objs, conns := conns1, idSeq := seq1 }

/-- One iteration of the scanner loop of `ParseMermaid`: trim, skip
blank and `//` lines, then try the five recognized forms in order;
anything else (including the boundary close marker) is discarded. -/
def stepLine (st : MState) (raw : String) : MState :=
  let line := trimGo raw.data
  if line.isEmpty then st
  else if startsWithL line "//".data then st
  else match matchPerson line with
  | some (id, name, desc) => addObj st id name desc "actor"
  | none =>
    match matchSystem line with
    | some (suf, id, name, desc) =>
      if suf = "_Ext" then declareExt st id name desc
      else if suf = "Db" then addObj st id name desc "store"
      else addObj st id name desc "system"
    | none =>
      match matchBound line with
      | some (id, name) => addObj st id name "" "group"
      | none =>
        match matchRel line with
        | some (bidi, fromId, toId, label) => addConn st fromId toId label bidi
        | none =>
          if matchEndBound line then st
          else st

/-- The scanner loop over the whole content. -/
def parseLines (lines : List String) : MState :=
  lines.foldl stepLine initState

/-- The diagram built at the end of `ParseMermaid`. -/
def buildDiagram (st : MState) : Diagram :=
  { Name := "Imported Diagram", Typ := "app-diagram",
    Objects := st.objs.map Prod.snd, Connections := st.conns }

/-- `ParseMermaid`: the reader is embedded as an `Except` input —
`.error` when the content cannot be obtained (unreadable file or a
failing scanner), `.ok` with the list of lines otherwise. -/
def ParseMermaidM (input : Except String (List String)) : Except String Diagram :=
  match input with
  | .error e => .error e
  | .ok lines => .ok (buildDiagram (parseLines lines))

/-! ### Parser invariants -/

theorem lookupObj_eq_none_iff (l : List (String × Object)) (k : String) :
    lookupObj l k = none ↔ k ∉ l.map Prod.fst := by
  induction l with
  | nil => simp [lookupObj]
  | cons kv rest ih =>
    by_cases he : k = kv.1
    · simp [lookupObj, he]
    · simp [lookupObj, he, ih]

theorem setProps_keys (st : MState) (id : String) (ps : Props) :
    (setProps st id ps).objs.map Prod.fst = st.objs.map Prod.fst := by
  simp only [setProps, List.map_map]
  apply List.map_congr_left
  intro kv _
  by_cases he : kv.1 = id <;> simp [he]

theorem addObj_keys_nodup (st : MState) (id name desc typ : String)
    (h : (st.objs.map Prod.fst).Nodup) :
    ((addObj st id name desc typ).objs.map Prod.fst).Nodup := by
  rcases hl : lookupObj st.objs id with _ | o
  · have hid : id ∉ st.objs.map Prod.fst := (lookupObj_eq_none_iff _ _).mp hl
    have hid2 : ∀ x : Object, (id, x) ∉ st.objs := fun x hx =>
      hid (List.mem_map.mpr ⟨(id, x), hx, rfl⟩)
    simp only [addObj, hl]
    simpa [List.nodup_append] using ⟨h, hid2⟩
  · simpa [addObj, hl] using h

theorem stepLine_keys_nodup (st : MState) (raw : String)
    (h : (st.objs.map Prod.fst).Nodup) :
    ((stepLine st raw).objs.map Prod.fst).Nodup := by
  rw [stepLine]
  split
  · exact h
  · split
    · exact h
    · split
      · exact addObj_keys_nodup _ _ _ _ _ h
      · split
        · split
          · rw [declareExt, setProps_keys]
            exact addObj_keys_nodup _ _ _ _ _ h
          · split
            · exact addObj_keys_nodup _ _ _ _ _ h
            · exact addObj_keys_nodup _ _ _ _ _ h
        · split
          · exact addObj_keys_nodup _ _ _ _ _ h
          · split
            · rw [addConn]
              split <;> exact h
            · split <;> exact h

theorem parseLines_keys_nodup (lines : List String) :
    ((parseLines lines).objs.map Prod.fst).Nodup := by
  rw [parseLines]
  have : ∀ st : MState, (st.objs.map Prod.fst).Nodup →
      ((lines.foldl stepLine st).objs.map Prod.fst).Nodup := by
    induction lines with
    | nil => intro st h; exact h
    | cons l rest ih =>
      intro st h
      exact ih _ (stepLine_keys_nodup st l h)
  exact this initState (by simp [initState])

/-! ### Claim C3: re-declaring an identifier -/

/-- C3 counterexample: declaring `a` as an internal system and then
re-declaring `a` as an external system produces one Node keeping the
first declaration's name, description and type — but its properties
are the external flag written by the second declaration, not the
first declaration's (empty) properties, so the second declaration is
not a no-op. -/
theorem c3_counterexample :
    (parseLines ["System(a, \x22First\x22)", "System_Ext(a, \x22Second\x22)"]).objs
      = [("a", { Handle := "a", Name := "First", Desc := "", Typ := "system",
                 Props := [("external", JVal.jbool true)] })]
    ∧ (parseLines ["System(a, \x22First\x22)"]).objs
      = [("a", { Handle := "a", Name := "First", Desc := "", Typ := "system",
                 Props := [] })]
    ∧ ([("external", JVal.jbool true)] : Props) ≠ ([] : Props) := by
  refine ⟨by decide, by decide, by decide⟩

/-- C3 (amended): identifiers stay unique (at most one Node per
identifier over any input) and re-declaring an existing identifier
never errors and keeps the first declaration's name, description and
type tag: the actor, internal-system, persistent-system and boundary
forms are complete no-ops on an existing identifier. The
external-system form is the one exception: it leaves name,
description, type and everything else unchanged but overwrites the
stored Node's properties with the external flag. -/
theorem c3_amended_redeclaration (st : MState) (id typ name2 desc2 : String)
    (o : Object) (hex : lookupObj st.objs id = some o) :
    addObj st id name2 desc2 typ = st
    ∧ declareExt st id name2 desc2
        = { st with objs := st.objs.map fun kv =>
              if kv.1 = id then
                (kv.1, { kv.2 with Props := [("external", JVal.jbool true)] })
              else kv }
    ∧ ∀ lines : List String, ((parseLines lines).objs.map Prod.fst).Nodup := by
  refine ⟨by simp [addObj, hex], ?_, fun lines => parseLines_keys_nodup lines⟩
  rw [declareExt]
  have h1 : addObj st id name2 desc2 "system" = st := by simp [addObj, hex]
  rw [h1, setProps]

/-- Witness for C3 (amended) at a concrete state. -/
theorem c3_amended_witness :
    addObj (parseLines ["System(a, \x22First\x22)"]) "a" "Second" "d2" "store"
      = parseLines ["System(a, \x22First\x22)"]
    ∧ ((parseLines ["Person(x, \x22X\x22)", "Person(x, \x22Y\x22)"]).objs.map
        Prod.fst).Nodup := by
  have h := c3_amended_redeclaration (parseLines ["System(a, \x22First\x22)"])
    "a" "store" "Second" "d2"
    { Handle := "a", Name := "First", Desc := "", Typ := "system", Props := [] }
    (by decide)
  exact ⟨h.1, h.2.2 _⟩

/-! ### Claim C4: the slug -/

/-- The slug as the spec's words describe it (for comparison with the
source's `slug`): lowercase, with every run of one or more spaces
collapsed to a single hyphen. -/
def collapseRuns : List Char → List Char
  | [] => []
  | [c] => if c = ' ' then ['-'] else [c]
  | a :: b :: t =>
    if a = ' ' && b = ' ' then collapseRuns (b :: t)
    else (if a = ' ' then '-' else a) :: collapseRuns (b :: t)

/-- The spec-described slug: lowercase, space runs collapsed to
single hyphens. -/
def slugSpecWords (id : String) : String :=
  ⟨collapseRuns (id.data.map Char.toLower)⟩

/-- C4 counterexample: on `"Multiple   Spaces"` the source's `slug`
yields `"multiple---spaces"` (each space becomes its own hyphen —
this is also what the repository's own `TestSlug` expects), while the
claimed collapse-runs normalization would yield `"multiple-spaces"`. -/
theorem c4_counterexample :
    slug "Multiple   Spaces" = "multiple---spaces"
    ∧ slugSpecWords "Multiple   Spaces" = "multiple-spaces"
    ∧ slug "Multiple   Spaces" ≠ slugSpecWords "Multiple   Spaces" := by
  refine ⟨by decide, by decide, by decide⟩

/-- C4 (amended): the remote-store handle of a declared identifier is
the identifier with each character lowercased and each space
individually replaced by one hyphen; runs of spaces are not
collapsed, and the handle always has the identifier's length. The
handle stored by a fresh declaration is exactly this slug. -/
theorem c4_amended_slug_charwise (id name desc typ : String) :
    (slug id).data = id.data.map (fun c => if c = ' ' then '-' else Char.toLower c)
    ∧ (slug id).length = id.length
    ∧ lookupObj (addObj initState id name desc typ).objs id
        = some { Handle := slug id, Name := name, Desc := desc,
                 Typ := typ, Props := [] } := by
  have hdata : (slug id).data
      = id.data.map (fun c => if c = ' ' then '-' else Char.toLower c) := by
    simp only [slug, replaceSpaces, List.map_map]
    apply List.map_congr_left
    intro c _
    by_cases hc : c = ' '
    · simp [hc, Function.comp]
    · simp [hc, Function.comp]
  refine ⟨hdata, ?_, ?_⟩
  · have : (slug id).length = (slug id).data.length := rfl
    rw [this, hdata, List.length_map]
    rfl
  · simp [addObj, initState, lookupObj]

/-! ### Claim C7: the parser never fails on content -/

/-- C7: whenever the content can be obtained, parsing succeeds — the
result is the diagram built from the scanner loop, never an error;
the parser fails exactly on an unobtainable input; and any line that
matches none of the recognized declaration forms leaves the parser
state untouched (it is silently skipped). -/
theorem c7_parser_total_on_content :
    (∀ lines : List String,
      ParseMermaidM (.ok lines) = .ok (buildDiagram (parseLines lines)))
    ∧ (∀ e : String, ParseMermaidM (.error e) = .error e)
    ∧ (∀ (st : MState) (raw : String),
        matchPerson (trimGo raw.data) = none →
        matchSystem (trimGo raw.data) = none →
        matchBound (trimGo raw.data) = none →
        matchRel (trimGo raw.data) = none →
        stepLine st raw = st) := by
  refine ⟨fun _ => rfl, fun _ => rfl, ?_⟩
  intro st raw h1 h2 h3 h4
  rw [stepLine]
  simp only [h1, h2, h3, h4]
  split
  · rfl
  · split
    · rfl
    · split <;> rfl

/-- Witness for C7 at unrecognized content (a Mermaid directive the
grammar subset does not know). -/
theorem c7_witness :
    stepLine (parseLines ["System(a, \x22First\x22)"]) "C4Context"
      = parseLines ["System(a, \x22First\x22)"]
    ∧ ParseMermaidM (.ok ["C4Context", "title Foo"])
      = .ok (buildDiagram (parseLines ["C4Context", "title Foo"])) := by
  have h := c7_parser_total_on_content
  exact ⟨h.2.2 _ "C4Context" (by decide) (by decide) (by decide) (by decide),
    h.1 ["C4Context", "title Foo"]⟩

/-! ## Remote-call traces of the reconciliation workflows
(client.go, uploader.go): claims C1, C5, C8

Each client method is embedded as a function from a remote oracle to
the ordered list of remote calls it issues paired with its result.
The oracle answers every call with a transport verdict, an HTTP
status, a body-decode verdict and (for listings) the decoded
identifiers — the remote store's transport is the spec's black box. -/

/-- One remote call, by kind and arguments. -/
inductive ApiCall where
  | getLandscape (lc : String)
  | getVersion (lc ver : String)
  | listIDs (lc ver path : String)
  | del (lc ver path id : String)
  | postDiagram (lc ver : String) (d : Diagram)
  | postObject (lc ver : String) (o : Object)
deriving DecidableEq, Repr

/-- The oracle's answer to one call: `transport = false` embeds a
transport error (`err != nil`), `status` the HTTP status code,
`decodeOk` whether the response body decodes, `ids` the identifiers a
listing's body carries. -/
structure Resp where
  transport : Bool
  status : Nat
  decodeOk : Bool
  ids : List String
deriving DecidableEq, Repr

/-- The remote store, as an oracle. -/
abbrev Remote := ApiCall → Resp

/-- `listIDs` (client.go): one GET; fails on transport or decode
failure. The Go code never inspects the status of a listing. -/
def listIDsM (r : Remote) (lc ver path : String) :
    List ApiCall × Except Unit (List String) :=
  let resp := r (.listIDs lc ver path)
  ([.listIDs lc ver path],
   if resp.transport = false then .error ()
   else if resp.decodeOk = false then .error ()
   else .ok resp.ids)

/-- `delAll` (client.go): one DELETE per identifier, in order,
stopping at the first transport failure or non-2xx status. -/
def delAllM (r : Remote) (lc ver path : String) :
    List String → List ApiCall × Except Unit Unit
  | [] => ([], .ok ())
  | id :: rest =>
    let resp := r (.del lc ver path id)
    if resp.transport = false then ([.del lc ver path id], .error ())
    else if 300 ≤ resp.status then ([.del lc ver path id], .error ())
    else
      let next := delAllM r lc ver path rest
      (.del lc ver path id :: next.1, next.2)

/-- One resource kind of `WipeVersion`: list it fully, then delete
identifier by identifier; a listing failure skips the deletions. -/
def wipeStage (r : Remote) (lc ver path : String) :
    List ApiCall × Except Unit Unit :=
  let ls := listIDsM r lc ver path
  match ls.2 with
  | .error e => (ls.1, .error e)
  | .ok ids =>
    let ds := delAllM r lc ver path ids
    (ls.1 ++ ds.1, ds.2)

/-- Go's early-return sequencing of two traced steps: if the first
step failed, return its error with its calls and issue nothing else;
otherwise run the second step after it. -/
def seqTrace (s rest : List ApiCall × Except Unit Unit) :
    List ApiCall × Except Unit Unit :=
  match s.2 with
  | .error e => (s.1, .error e)
  | .ok _ => (s.1 ++ rest.1, rest.2)

/-- `WipeVersion` (client.go): diagram-groups, diagrams, objects,
connections, in that order, each stage aborting the rest on failure. -/
def WipeVersionM (r : Remote) (lc ver : String) :
    List ApiCall × Except Unit Unit :=
  seqTrace (wipeStage r lc ver "diagram-groups")
    (seqTrace (wipeStage r lc ver "diagrams")
      (seqTrace (wipeStage r lc ver "model/objects")
        (wipeStage r lc ver "model/connections")))

/-- `PostDiagram` (client.go): marshal the diagram (marshaling cannot
fail on this value domain), issue one POST carrying the whole diagram
— objects and connections embedded — and decode the response. No
validation of any kind precedes the POST. -/
def PostDiagramM (r : Remote) (lc ver : String) (d : Diagram) :
    List ApiCall × Except Unit Unit :=
  let resp := r (.postDiagram lc ver d)
  ([.postDiagram lc ver d],
   if resp.transport = false then .error ()
   else if 300 ≤ resp.status then .error ()
   else if resp.decodeOk = false then .error ()
   else .ok ())

/-- `CreateObject` (client.go): one POST unless dry-run. -/
def CreateObjectM (r : Remote) (lc ver : String) (obj : Object) (dryRun : Bool) :
    List ApiCall × Except Unit Unit :=
  if dryRun then ([], .ok ())
  else
    let resp := r (.postObject lc ver obj)
    ([.postObject lc ver obj],
     if resp.transport = false then .error ()
     else if 300 ≤ resp.status then .error ()
     else .ok ())

/-- `ValidateLandscapeVersion` (client.go): GET the landscape, then —
only if that succeeded — GET the version. -/
def ValidateLandscapeVersionM (r : Remote) (lc ver : String) :
    List ApiCall × Except Unit Unit :=
  let rl := r (.getLandscape lc)
  if rl.transport = false then ([.getLandscape lc], .error ())
  else if 300 ≤ rl.status then ([.getLandscape lc], .error ())
  else
    let rv := r (.getVersion lc ver)
    ([.getLandscape lc, .getVersion lc ver],
     if rv.transport = false then .error ()
     else if 300 ≤ rv.status then .error ()
     else .ok ())

/-- The configuration block of the generated objects file. -/
structure UpConfig where
  LandscapeID : String
  VersionID : String
  Wipe : Bool
deriving DecidableEq, Repr

/-- `uploader.Object`: one record of the objects file. -/
structure UpObject where
  ID : String
  Name : String
  Description : String
  Typ : String
  Package : String
deriving DecidableEq, Repr

/-- `uploader.ObjectsFile`. -/
structure ObjectsFile where
  Config : UpConfig
  Objects : List UpObject
deriving DecidableEq, Repr

/-- `uploader.UploadOptions` (the file path is consumed by the
reading step, embedded as the `Except` input of `UploadM`). -/
structure UploadOptions where
  Token : String
  Verbose : Bool
  DryRun : Bool
  ForceLandscape : String
  ForceVersion : String
deriving DecidableEq, Repr

/-- The conversion inside `Upload`'s loop to the API object format. -/
def toAPIObject (obj : UpObject) : Object :=
  { Handle := obj.ID, Name := obj.Name, Desc := obj.Description,
    Typ := obj.Typ, Props := [("package", JVal.jstr obj.Package)] }

/-- `Upload`'s object loop: one create per record unless dry-run,
stopping at the first failure. -/
def uploadObjectsM (r : Remote) (lc ver : String) (dryRun : Bool) :
    List UpObject → List ApiCall × Except Unit Unit
  | [] => ([], .ok ())
  | obj :: rest =>
    if dryRun then uploadObjectsM r lc ver dryRun rest
    else
      let c := CreateObjectM r lc ver (toAPIObject obj) false
      match c.2 with
      | .error e => (c.1, .error e)
      | .ok _ =>
        let next := uploadObjectsM r lc ver dryRun rest
        (c.1 ++ next.1, next.2)

/-- `handleWipeIfNeeded` (uploader.go). -/
def handleWipeIfNeededM (r : Remote) (lc ver : String) (wipe dryRun : Bool) :
    List ApiCall × Except Unit Unit :=
  if wipe = false then ([], .ok ())
  else if dryRun = false then WipeVersionM r lc ver
  else ([], .ok ())

/-- The effective landscape id after the command-line override. -/
def effLandscape (f : ObjectsFile) (opts : UploadOptions) : String :=
  if opts.ForceLandscape ≠ "" then opts.ForceLandscape else f.Config.LandscapeID

/-- The effective version id after the command-line override. -/
def effVersion (f : ObjectsFile) (opts : UploadOptions) : String :=
  if opts.ForceVersion ≠ "" then opts.ForceVersion else f.Config.VersionID

/-- `Upload` (uploader.go): read and parse the objects file (`.error`
input embeds an unreadable or unparsable file), apply overrides,
reject empty scope, validate scope, wipe if requested, then create
each object. -/
def UploadM (r : Remote) (input : Except Unit ObjectsFile)
    (opts : UploadOptions) : List ApiCall × Except Unit Unit :=
  match input with
  | .error e => ([], .error e)
  | .ok f =>
    let lc := effLandscape f opts
    let ver := effVersion f opts
    if lc = "" ∨ ver = "" then ([], .error ())
    else
      seqTrace (ValidateLandscapeVersionM r lc ver)
        (seqTrace (handleWipeIfNeededM r lc ver f.Config.Wipe opts.DryRun)
          (uploadObjectsM r lc ver opts.DryRun f.Objects))

/-! ### Call classification -/

/-- Is this call a deletion? -/
def isDel : ApiCall → Bool
  | .del _ _ _ _ => true
  | _ => false

/-- Is this call a creation (object create or diagram create)? -/
def isCreate : ApiCall → Bool
  | .postObject _ _ _ => true
  | .postDiagram _ _ _ => true
  | _ => false

/-- Is this call a listing, creation or deletion (anything beyond the
two read-only existence checks)? -/
def isListOrMutate : ApiCall → Bool
  | .listIDs _ _ _ => true
  | .del _ _ _ _ => true
  | .postObject _ _ _ => true
  | .postDiagram _ _ _ => true
  | _ => false

/-- The wipe order of a resource-kind path. -/
def pathRank (p : String) : Nat :=
  if p = "diagram-groups" then 0
  else if p = "diagrams" then 1
  else if p = "model/objects" then 2
  else 3

/-- The wipe order of a call (`none` for calls that are neither a
listing nor a deletion). -/
def callRank : ApiCall → Option Nat
  | .listIDs _ _ p => some (pathRank p)
  | .del _ _ p _ => some (pathRank p)
  | _ => none

/-- The oracle accepted this call (for the call kinds whose outcome
the wipe sequence inspects). -/
def callOK (r : Remote) (c : ApiCall) : Prop :=
  match c with
  | .del _ _ _ _ => (r c).transport = true ∧ (r c).status < 300
  | .listIDs _ _ _ => (r c).transport = true ∧ (r c).decodeOk = true
  | _ => True

/-- Every call of the trace that is followed by another call
succeeded: a failure is never followed by further calls. -/
def FailureStopsTrace (r : Remote) (t : List ApiCall) : Prop :=
  ∀ pre c post, t = pre ++ c :: post → post ≠ [] → callOK r c

/-- The connections a trace sends to the remote store for creation
(the diagram-create call carries its connections). -/
def connectionsWritten (t : List ApiCall) : List Connection :=
  t.flatMap fun c =>
    match c with
    | .postDiagram _ _ d => d.Connections
    | _ => []

/-- An oracle that accepts everything (every call succeeds). -/
def okRemote : Remote := fun _ =>
  { transport := true, status := 200, decodeOk := true, ids := [] }

/-! ### Component lemmas on traces -/

theorem seqTrace_mem {s rest : List ApiCall × Except Unit Unit} {c : ApiCall}
    (h : c ∈ (seqTrace s rest).1) : c ∈ s.1 ∨ c ∈ rest.1 := by
  rw [seqTrace] at h
  rcases hs : s.2 with _ | u
  · rw [hs] at h; exact Or.inl h
  · rw [hs] at h; simpa using List.mem_append.mp h

theorem delAllM_calls (r : Remote) (lc ver path : String) (ids : List String) :
    ∀ c ∈ (delAllM r lc ver path ids).1, ∃ i, c = ApiCall.del lc ver path i := by
  induction ids with
  | nil => intro c hc; simp [delAllM] at hc
  | cons id rest ih =>
    intro c hc
    rw [delAllM] at hc
    by_cases h1 : (r (.del lc ver path id)).transport = false
    · rw [if_pos h1] at hc
      simp at hc
      exact ⟨id, hc⟩
    · rw [if_neg h1] at hc
      by_cases h2 : 300 ≤ (r (.del lc ver path id)).status
      · rw [if_pos h2] at hc
        simp at hc
        exact ⟨id, hc⟩
      · rw [if_neg h2] at hc
        simp only [List.mem_cons] at hc
        rcases hc with hc | hc
        · exact ⟨id, hc⟩
        · exact ih c hc

theorem listIDsM_calls (r : Remote) (lc ver path : String) :
    ∀ c ∈ (listIDsM r lc ver path).1, c = ApiCall.listIDs lc ver path := by
  intro c hc
  simpa [listIDsM] using hc

theorem wipeStage_calls (r : Remote) (lc ver path : String) :
    ∀ c ∈ (wipeStage r lc ver path).1, callRank c = some (pathRank path) := by
  intro c hc
  rw [wipeStage] at hc
  rcases hl : (listIDsM r lc ver path).2 with _ | ids
  · rw [hl] at hc
    rw [listIDsM_calls r lc ver path c hc]
    rfl
  · rw [hl] at hc
    simp only [List.mem_append] at hc
    rcases hc with hc | hc
    · rw [listIDsM_calls r lc ver path c hc]; rfl
    · rcases delAllM_calls r lc ver path ids c hc with ⟨i, hi⟩
      rw [hi]; rfl

theorem wipeVersionM_calls (r : Remote) (lc ver : String) :
    ∀ c ∈ (WipeVersionM r lc ver).1, (callRank c).isSome := by
  intro c hc
  rw [WipeVersionM] at hc
  rcases seqTrace_mem hc with h | h
  · rw [wipeStage_calls r lc ver _ c h]; rfl
  rcases seqTrace_mem h with h | h
  · rw [wipeStage_calls r lc ver _ c h]; rfl
  rcases seqTrace_mem h with h | h
  · rw [wipeStage_calls r lc ver _ c h]; rfl
  · rw [wipeStage_calls r lc ver _ c h]; rfl

theorem validateM_calls (r : Remote) (lc ver : String) :
    ∀ c ∈ (ValidateLandscapeVersionM r lc ver).1,
      c = ApiCall.getLandscape lc ∨ c = ApiCall.getVersion lc ver := by
  intro c hc
  rw [ValidateLandscapeVersionM] at hc
  by_cases h1 : (r (.getLandscape lc)).transport = false
  · rw [if_pos h1] at hc; simp at hc; exact Or.inl hc
  · rw [if_neg h1] at hc
    by_cases h2 : 300 ≤ (r (.getLandscape lc)).status
    · rw [if_pos h2] at hc; simp at hc; exact Or.inl hc
    · rw [if_neg h2] at hc
      simpa using hc

theorem uploadObjectsM_calls (r : Remote) (lc ver : String) (dry : Bool)
    (objs : List UpObject) :
    ∀ c ∈ (uploadObjectsM r lc ver dry objs).1,
      ∃ o, c = ApiCall.postObject lc ver o := by
  induction objs with
  | nil => intro c hc; simp [uploadObjectsM] at hc
  | cons obj rest ih =>
    intro c hc
    simp only [uploadObjectsM] at hc
    by_cases hd : dry = true
    · rw [if_pos hd] at hc
      exact ih c hc
    · rw [if_neg hd] at hc
      rcases hcr : (CreateObjectM r lc ver (toAPIObject obj) false).2 with _ | u
      · rw [hcr] at hc
        simp [CreateObjectM] at hc
        exact ⟨toAPIObject obj, hc⟩
      · rw [hcr] at hc
        simp only [List.mem_append] at hc
        rcases hc with hc | hc
        · simp [CreateObjectM] at hc
          exact ⟨toAPIObject obj, hc⟩
        · exact ih c hc

theorem handleWipeM_calls (r : Remote) (lc ver : String) (wipe dry : Bool) :
    ∀ c ∈ (handleWipeIfNeededM r lc ver wipe dry).1, (callRank c).isSome := by
  intro c hc
  rw [handleWipeIfNeededM] at hc
  by_cases hw : wipe = false
  · rw [if_pos hw] at hc; simp at hc
  · rw [if_neg hw] at hc
    by_cases hd : dry = false
    · rw [if_pos hd] at hc
      exact wipeVersionM_calls r lc ver c hc
    · rw [if_neg hd] at hc; simp at hc

theorem handleWipeM_noWipe (r : Remote) (lc ver : String) (dry : Bool) :
    (handleWipeIfNeededM r lc ver false dry).1 = [] := rfl

theorem uploadM_mem (r : Remote) (f : ObjectsFile) (opts : UploadOptions)
    {c : ApiCall} (hc : c ∈ (UploadM r (.ok f) opts).1) :
    c ∈ (ValidateLandscapeVersionM r (effLandscape f opts) (effVersion f opts)).1
    ∨ c ∈ (handleWipeIfNeededM r (effLandscape f opts) (effVersion f opts)
            f.Config.Wipe opts.DryRun).1
    ∨ c ∈ (uploadObjectsM r (effLandscape f opts) (effVersion f opts)
            opts.DryRun f.Objects).1 := by
  rw [UploadM] at hc
  by_cases he : effLandscape f opts = "" ∨ effVersion f opts = ""
  · rw [if_pos he] at hc; simp at hc
  · rw [if_neg he] at hc
    rcases seqTrace_mem hc with h | h
    · exact Or.inl h
    rcases seqTrace_mem h with h | h
    · exact Or.inr (Or.inl h)
    · exact Or.inr (Or.inr h)

/-! ### A failure aborts the remainder of a trace -/

theorem fst_nil (r : Remote) : FailureStopsTrace r [] := by
  intro pre c post h _
  exact absurd h.symm (by simp)

theorem fst_single (r : Remote) (x : ApiCall) : FailureStopsTrace r [x] := by
  intro pre c post h hpost
  rcases pre with _ | ⟨p, pr⟩
  · rw [List.nil_append] at h
    exact absurd (List.cons_eq_cons.mp h).2.symm hpost
  · rw [List.cons_append] at h
    exact absurd (List.cons_eq_cons.mp h).2.symm (by simp)

theorem fst_append {r : Remote} {a b : List ApiCall}
    (ha : FailureStopsTrace r a) (hb : FailureStopsTrace r b)
    (hcross : b ≠ [] → ∀ c ∈ a, callOK r c) :
    FailureStopsTrace r (a ++ b) := by
  intro pre c post heq hpost
  rcases List.append_eq_append_iff.mp heq with ⟨m, hm1, hm2⟩ | ⟨m, hm1, hm2⟩
  · exact hb m c post hm2 hpost
  · rcases m with _ | ⟨x, cs⟩
    · simp at hm2
      exact hb [] c post (by simpa using hm2.symm) hpost
    · rw [List.cons_append] at hm2
      have hx : x = c := (List.cons_eq_cons.mp hm2.symm).1
      have hpost2 : post = cs ++ b := (List.cons_eq_cons.mp hm2.symm).2.symm
      by_cases hbn : b = []
      · have hcs : cs ≠ [] := by
          intro h0
          apply hpost
          rw [hpost2, h0, hbn]
          rfl
        exact hx ▸ ha pre x cs hm1 hcs
      · exact hx ▸ hcross hbn x (by rw [hm1]; simp)

theorem delAllM_good (r : Remote) (lc ver path : String) (ids : List String) :
    FailureStopsTrace r (delAllM r lc ver path ids).1
    ∧ ((delAllM r lc ver path ids).2 = .ok () →
        ∀ c ∈ (delAllM r lc ver path ids).1, callOK r c) := by
  induction ids with
  | nil =>
    exact ⟨fst_nil r, by intro _ c hc; simp [delAllM] at hc⟩
  | cons id rest ih =>
    by_cases h1 : (r (.del lc ver path id)).transport = false
    · rw [delAllM, if_pos h1]
      exact ⟨fst_single r _, by intro h0; cases h0⟩
    · by_cases h2 : 300 ≤ (r (.del lc ver path id)).status
      · rw [delAllM, if_neg h1, if_pos h2]
        exact ⟨fst_single r _, by intro h0; cases h0⟩
      · have hok : callOK r (.del lc ver path id) := by
          constructor
          · rcases hb : (r (.del lc ver path id)).transport with _ | _
            · exact absurd hb h1
            · rfl
          · omega
        rw [delAllM, if_neg h1, if_neg h2]
        constructor
        · show FailureStopsTrace r
            (ApiCall.del lc ver path id :: (delAllM r lc ver path rest).1)
          have heq : (ApiCall.del lc ver path id :: (delAllM r lc ver path rest).1)
              = [ApiCall.del lc ver path id] ++ (delAllM r lc ver path rest).1 := rfl
          rw [heq]
          exact fst_append (fst_single r _) ih.1
            (fun _ c hc => (List.mem_singleton.mp hc) ▸ hok)
        · show (delAllM r lc ver path rest).2 = .ok () →
            ∀ c ∈ ApiCall.del lc ver path id :: (delAllM r lc ver path rest).1,
              callOK r c
          intro hres c hc
          rcases List.mem_cons.mp hc with h | h
          · exact h ▸ hok
          · exact ih.2 hres c h

theorem listIDsM_good (r : Remote) (lc ver path : String) :
    FailureStopsTrace r (listIDsM r lc ver path).1
    ∧ ((listIDsM r lc ver path).2.isOk →
        ∀ c ∈ (listIDsM r lc ver path).1, callOK r c) := by
  constructor
  · exact fst_single r _
  · intro hres c hc
    rw [listIDsM_calls r lc ver path c hc]
    by_cases h1 : (r (.listIDs lc ver path)).transport = false
    · simp [listIDsM, h1, Except.isOk, Except.toBool] at hres
    · by_cases h2 : (r (.listIDs lc ver path)).decodeOk = false
      · simp [listIDsM, h1, h2, Except.isOk, Except.toBool] at hres
      · exact ⟨by simpa using h1, by simpa using h2⟩

theorem wipeStage_good (r : Remote) (lc ver path : String) :
    FailureStopsTrace r (wipeStage r lc ver path).1
    ∧ ((wipeStage r lc ver path).2 = .ok () →
        ∀ c ∈ (wipeStage r lc ver path).1, callOK r c) := by
  rw [wipeStage]
  rcases hl : (listIDsM r lc ver path).2 with _ | ids
  · exact ⟨(listIDsM_good r lc ver path).1, by intro h0; cases h0⟩
  · constructor
    · refine fst_append (listIDsM_good r lc ver path).1
        (delAllM_good r lc ver path ids).1 ?_
      intro _ c hc
      exact (listIDsM_good r lc ver path).2 (by rw [hl]; rfl) c hc
    · intro hres c hc
      rcases List.mem_append.mp hc with h | h
      · exact (listIDsM_good r lc ver path).2 (by rw [hl]; rfl) c h
      · exact (delAllM_good r lc ver path ids).2 hres c h

theorem seqTrace_good {r : Remote} {s rest : List ApiCall × Except Unit Unit}
    (hs : FailureStopsTrace r s.1)
    (hsok : s.2 = .ok () → ∀ c ∈ s.1, callOK r c)
    (hr : FailureStopsTrace r rest.1)
    (hrok : rest.2 = .ok () → ∀ c ∈ rest.1, callOK r c) :
    FailureStopsTrace r (seqTrace s rest).1
    ∧ ((seqTrace s rest).2 = .ok () →
        ∀ c ∈ (seqTrace s rest).1, callOK r c) := by
  rw [seqTrace]
  rcases hres : s.2 with _ | u
  · exact ⟨hs, by intro h0; cases h0⟩
  · constructor
    · exact fst_append hs hr (fun _ c hc => hsok (by rw [hres]) c hc)
    · intro hres2 c hc
      rcases List.mem_append.mp hc with h | h
      · exact hsok (by rw [hres]) c h
      · exact hrok hres2 c h

theorem wipeVersionM_good (r : Remote) (lc ver : String) :
    FailureStopsTrace r (WipeVersionM r lc ver).1
    ∧ ((WipeVersionM r lc ver).2 = .ok () →
        ∀ c ∈ (WipeVersionM r lc ver).1, callOK r c) := by
  rw [WipeVersionM]
  have h4 := wipeStage_good r lc ver "model/connections"
  have h34 := seqTrace_good (wipeStage_good r lc ver "model/objects").1
    (wipeStage_good r lc ver "model/objects").2 h4.1 h4.2
  have h234 := seqTrace_good (wipeStage_good r lc ver "diagrams").1
    (wipeStage_good r lc ver "diagrams").2 h34.1 h34.2
  exact seqTrace_good (wipeStage_good r lc ver "diagram-groups").1
    (wipeStage_good r lc ver "diagram-groups").2 h234.1 h234.2

/-! ### The delAll trace: listed identifiers deleted one by one -/

theorem delAllM_shape (r : Remote) (lc ver path : String) (ids : List String) :
    ((delAllM r lc ver path ids).2 = .ok ()
      ∧ (delAllM r lc ver path ids).1
          = ids.map (fun i => ApiCall.del lc ver path i))
    ∨ (∃ k < ids.length, (delAllM r lc ver path ids).2 = .error ()
      ∧ (delAllM r lc ver path ids).1
          = (ids.take (k + 1)).map (fun i => ApiCall.del lc ver path i)) := by
  induction ids with
  | nil => exact Or.inl ⟨rfl, rfl⟩
  | cons id rest ih =>
    by_cases h1 : (r (.del lc ver path id)).transport = false
    · refine Or.inr ⟨0, by simp, ?_⟩
      rw [delAllM, if_pos h1]
      exact ⟨rfl, by simp⟩
    · by_cases h2 : 300 ≤ (r (.del lc ver path id)).status
      · refine Or.inr ⟨0, by simp, ?_⟩
        rw [delAllM, if_neg h1, if_pos h2]
        exact ⟨rfl, by simp⟩
      · rw [delAllM, if_neg h1, if_neg h2]
        rcases ih with ⟨hres, htr⟩ | ⟨k, hk, hres, htr⟩
        · exact Or.inl ⟨hres, by simp [htr]⟩
        · refine Or.inr ⟨k + 1, by simpa using hk, hres, ?_⟩
          simp [htr]

/-! ### The wipe order over resource kinds -/

theorem pairwise_le_of_const {l : List Nat} {v : Nat} (h : ∀ x ∈ l, x = v) :
    l.Pairwise (· ≤ ·) := by
  induction l with
  | nil => exact List.Pairwise.nil
  | cons x t ih =>
    refine List.Pairwise.cons ?_ (ih fun y hy => h y (List.mem_cons_of_mem x hy))
    intro y hy
    rw [h x (List.mem_cons_self x t), h y (List.mem_cons_of_mem x hy)]

theorem stage_rank_mem (r : Remote) (lc ver p : String) :
    ∀ x ∈ (wipeStage r lc ver p).1.filterMap callRank, x = pathRank p := by
  intro x hx
  rcases List.mem_filterMap.mp hx with ⟨c, hc, hrank⟩
  have h := wipeStage_calls r lc ver p c hc
  rw [h] at hrank
  exact (Option.some.inj hrank).symm

theorem seq_rank_sorted {s rest : List ApiCall × Except Unit Unit}
    (v : Nat) (hs : ∀ c ∈ s.1, callRank c = some v)
    (hrest : (rest.1.filterMap callRank).Pairwise (· ≤ ·))
    (hlb : ∀ x ∈ rest.1.filterMap callRank, v ≤ x) :
    ((seqTrace s rest).1.filterMap callRank).Pairwise (· ≤ ·)
    ∧ ∀ x ∈ (seqTrace s rest).1.filterMap callRank, v ≤ x := by
  have hsv : ∀ x ∈ s.1.filterMap callRank, x = v := by
    intro x hx
    rcases List.mem_filterMap.mp hx with ⟨c, hc, hrank⟩
    rw [hs c hc] at hrank
    exact (Option.some.inj hrank).symm
  rw [seqTrace]
  rcases s.2 with _ | u
  · exact ⟨pairwise_le_of_const hsv, fun x hx => (hsv x hx) ▸ Nat.le_refl v⟩
  · rw [List.filterMap_append]
    constructor
    · refine List.pairwise_append.mpr ⟨pairwise_le_of_const hsv, hrest, ?_⟩
      intro x hx y hy
      rw [hsv x hx]
      exact hlb y hy
    · intro x hx
      rcases List.mem_append.mp hx with h | h
      · exact (hsv x h) ▸ Nat.le_refl v
      · exact hlb x h

theorem wipeVersionM_rank_sorted (r : Remote) (lc ver : String) :
    ((WipeVersionM r lc ver).1.filterMap callRank).Pairwise (· ≤ ·) := by
  have h4s : ((wipeStage r lc ver "model/connections").1.filterMap
      callRank).Pairwise (· ≤ ·) :=
    pairwise_le_of_const (stage_rank_mem r lc ver "model/connections")
  have h4b : ∀ x ∈ (wipeStage r lc ver "model/connections").1.filterMap callRank,
      pathRank "model/objects" ≤ x := by
    intro x hx
    rw [stage_rank_mem r lc ver "model/connections" x hx]
    decide
  have h34 := seq_rank_sorted (pathRank "model/objects")
    (wipeStage_calls r lc ver "model/objects") h4s h4b
  have h34b : ∀ x ∈ (seqTrace (wipeStage r lc ver "model/objects")
      (wipeStage r lc ver "model/connections")).1.filterMap callRank,
      pathRank "diagrams" ≤ x := by
    intro x hx
    exact le_trans (by decide) (h34.2 x hx)
  have h234 := seq_rank_sorted (pathRank "diagrams")
    (wipeStage_calls r lc ver "diagrams") h34.1 h34b
  have h234b : ∀ x ∈ (seqTrace (wipeStage r lc ver "diagrams")
      (seqTrace (wipeStage r lc ver "model/objects")
        (wipeStage r lc ver "model/connections"))).1.filterMap callRank,
      pathRank "diagram-groups" ≤ x := by
    intro x hx
    exact le_trans (by decide) (h234.2 x hx)
  have h1234 := seq_rank_sorted (pathRank "diagram-groups")
    (wipeStage_calls r lc ver "diagram-groups") h234.1 h234b
  rw [WipeVersionM]
  exact h1234.1

/-- A call that is a listing or a deletion is not a creation. -/
theorem isCreate_false_of_rank_isSome {c : ApiCall}
    (h : (callRank c).isSome) : isCreate c = false := by
  cases c <;> first | rfl | (exfalso; simp [callRank] at h)

/-! ### Sample values for the concrete instances -/

/-- A connection whose endpoints exist nowhere remotely. -/
def exConn : Connection :=
  { Handle := "h0001", From := "a", To := "b", Label := "uses" }

/-- A diagram carrying that one connection. -/
def exDiagram : Diagram :=
  { Name := "Imported Diagram", Typ := "app-diagram",
    Objects := [], Connections := [exConn] }

/-- A sample objects file (wipe disabled). -/
def exFile : ObjectsFile :=
  { Config := { LandscapeID := "L", VersionID := "V", Wipe := false },
    Objects := [{ ID := "service-A", Name := "A", Description := "",
                  Typ := "System", Package := "pkg" }] }

/-- Default upload options. -/
def exOpts : UploadOptions :=
  { Token := "", Verbose := false, DryRun := false,
    ForceLandscape := "", ForceVersion := "" }

/-- An oracle whose landscape existence check returns 404. -/
def landscape404 : Remote := fun c =>
  match c with
  | .getLandscape _ =>
    { transport := true, status := 404, decodeOk := true, ids := [] }
  | _ => { transport := true, status := 200, decodeOk := true, ids := [] }

/-! ### Claim C1: connection materialization -/

/-- C1 counterexample: with a remote store holding no object handles
at all, the connection batch of `exDiagram` has an Edge whose target
does not exist remotely, yet the workflow is not aborted: the single
diagram-create call carries that Edge to the remote store (and with
an accepting remote it succeeds). No endpoint-existence validation is
performed anywhere. -/
theorem c1_counterexample :
    exConn ∈ exDiagram.Connections
    ∧ exConn.To ∉ ([] : List String)
    ∧ connectionsWritten (PostDiagramM okRemote "lc" "ver" exDiagram).1 = [exConn]
    ∧ (PostDiagramM okRemote "lc" "ver" exDiagram).2 = .ok ()
    ∧ connectionsWritten (PostDiagramM okRemote "lc" "ver" exDiagram).1 ≠ [] := by
  refine ⟨by decide, by decide, by decide, rfl, by decide⟩

/-- C1 (amended): the connection-materialization workflow performs no
endpoint-existence validation at all: whatever the remote state, it
issues exactly one diagram-create call, that call carries every Edge
of the batch, and no existence check, listing or any other call
precedes or follows it. The object-upload workflow, for its part,
never writes a connection. -/
theorem c1_amended_no_endpoint_validation (r : Remote) (lc ver : String)
    (d : Diagram) (f : ObjectsFile) (opts : UploadOptions) :
    (PostDiagramM r lc ver d).1 = [ApiCall.postDiagram lc ver d]
    ∧ connectionsWritten (PostDiagramM r lc ver d).1 = d.Connections
    ∧ connectionsWritten (UploadM r (.ok f) opts).1 = [] := by
  refine ⟨rfl, by simp [connectionsWritten, PostDiagramM], ?_⟩
  rw [connectionsWritten, List.flatMap_eq_nil_iff]
  intro c hc
  rcases uploadM_mem r f opts hc with h | h | h
  · rcases validateM_calls r _ _ c h with he | he <;> simp [he]
  · have hr := handleWipeM_calls r _ _ _ _ c h
    cases c <;> first | rfl | (exfalso; simp [callRank] at hr)
  · rcases uploadObjectsM_calls r _ _ _ _ c h with ⟨o, ho⟩
    simp [ho]

/-! ### Claim C5: wipe ordering and abort semantics -/

/-- C5: without the wipe option the reconciliation issues zero
deletions; with it, every deletion precedes every creation; the wipe
trace consists only of listings and deletions whose resource kinds
are monotone in the order diagram-groups, diagrams, objects,
connections; each kind's deletions are exactly the listed
identifiers, issued one by one in order, a failure cutting them to a
proper prefix; and any failed call in the wipe is the wipe's last
call. -/
theorem c5_wipe_order_and_abort (r : Remote) (f : ObjectsFile)
    (opts : UploadOptions) (lc ver : String) :
    (f.Config.Wipe = false → (UploadM r (.ok f) opts).1.filter isDel = [])
    ∧ (∃ a b, (UploadM r (.ok f) opts).1 = a ++ b
        ∧ (∀ c ∈ a, isCreate c = false) ∧ (∀ c ∈ b, isDel c = false))
    ∧ (∀ c ∈ (WipeVersionM r lc ver).1, (callRank c).isSome)
    ∧ ((WipeVersionM r lc ver).1.filterMap callRank).Pairwise (· ≤ ·)
    ∧ (∀ path ids,
        ((delAllM r lc ver path ids).2 = .ok ()
          ∧ (delAllM r lc ver path ids).1
              = ids.map (fun i => ApiCall.del lc ver path i))
        ∨ (∃ k < ids.length, (delAllM r lc ver path ids).2 = .error ()
          ∧ (delAllM r lc ver path ids).1
              = (ids.take (k + 1)).map (fun i => ApiCall.del lc ver path i)))
    ∧ FailureStopsTrace r (WipeVersionM r lc ver).1 := by
  refine ⟨?_, ?_, wipeVersionM_calls r lc ver, wipeVersionM_rank_sorted r lc ver,
    fun path ids => delAllM_shape r lc ver path ids, (wipeVersionM_good r lc ver).1⟩
  · intro hw
    rw [List.filter_eq_nil_iff]
    intro c hc
    rcases uploadM_mem r f opts hc with h | h | h
    · rcases validateM_calls r _ _ c h with he | he <;> simp [he, isDel]
    · rw [hw, handleWipeM_noWipe] at h
      cases h
    · rcases uploadObjectsM_calls r _ _ _ _ c h with ⟨o, ho⟩
      simp [ho, isDel]
  · simp only [UploadM]
    by_cases he : effLandscape f opts = "" ∨ effVersion f opts = ""
    · rw [if_pos he]
      exact ⟨[], [], rfl, by simp, by simp⟩
    · rw [if_neg he]
      have hvc : ∀ c ∈ (ValidateLandscapeVersionM r (effLandscape f opts)
          (effVersion f opts)).1, isCreate c = false := by
        intro c hc
        rcases validateM_calls r _ _ c hc with h | h <;> simp [h, isCreate]
      have hwc : ∀ c ∈ (handleWipeIfNeededM r (effLandscape f opts)
          (effVersion f opts) f.Config.Wipe opts.DryRun).1, isCreate c = false :=
        fun c hc => isCreate_false_of_rank_isSome (handleWipeM_calls r _ _ _ _ c hc)
      have huc : ∀ c ∈ (uploadObjectsM r (effLandscape f opts)
          (effVersion f opts) opts.DryRun f.Objects).1, isDel c = false := by
        intro c hc
        rcases uploadObjectsM_calls r _ _ _ _ c hc with ⟨o, ho⟩
        simp [ho, isDel]
      rcases hv2 : (ValidateLandscapeVersionM r (effLandscape f opts)
          (effVersion f opts)).2 with _ | u
      · simp only [seqTrace, hv2]
        exact ⟨_, [], (List.append_nil _).symm, hvc, by simp⟩
      · rcases hw2 : (handleWipeIfNeededM r (effLandscape f opts)
            (effVersion f opts) f.Config.Wipe opts.DryRun).2 with _ | u2
        · simp only [seqTrace, hv2, hw2]
          refine ⟨_, [], (List.append_nil _).symm, ?_, by simp⟩
          intro c hc
          rcases List.mem_append.mp hc with h | h
          · exact hvc c h
          · exact hwc c h
        · simp only [seqTrace, hv2, hw2]
          refine ⟨(ValidateLandscapeVersionM r (effLandscape f opts)
              (effVersion f opts)).1
            ++ (handleWipeIfNeededM r (effLandscape f opts) (effVersion f opts)
              f.Config.Wipe opts.DryRun).1, _, by rw [List.append_assoc], ?_, huc⟩
          intro c hc
          rcases List.mem_append.mp hc with h | h
          · exact hvc c h
          · exact hwc c h

/-- Witness for C5: a no-wipe upload against an accepting remote
issues zero deletions, and the wipe trace against an accepting remote
is rank-monotone. -/
theorem c5_witness :
    (UploadM okRemote (.ok exFile) exOpts).1.filter isDel = []
    ∧ ((WipeVersionM okRemote "L" "V").1.filterMap callRank).Pairwise (· ≤ ·) := by
  have h := c5_wipe_order_and_abort okRemote exFile exOpts "L" "V"
  exact ⟨h.1 rfl, h.2.2.2.1⟩

/-! ### Claim C8: scope validation is fail-fast -/

/-- C8: the landscape is checked first — if that check fails the
validation stops with that single call and an error — the version
check is issued only after it; and whenever scope validation fails,
the whole upload issues zero list, create or delete calls (its trace
holds at most the two read-only existence checks). -/
theorem c8_scope_validation_failfast (r : Remote) (f : ObjectsFile)
    (opts : UploadOptions) :
    (((r (.getLandscape (effLandscape f opts))).transport = false
        ∨ 300 ≤ (r (.getLandscape (effLandscape f opts))).status) →
      (ValidateLandscapeVersionM r (effLandscape f opts) (effVersion f opts)).1
          = [ApiCall.getLandscape (effLandscape f opts)]
      ∧ (ValidateLandscapeVersionM r (effLandscape f opts) (effVersion f opts)).2
          = .error ())
    ∧ ((ValidateLandscapeVersionM r (effLandscape f opts) (effVersion f opts)).1
          = [ApiCall.getLandscape (effLandscape f opts)]
        ∨ (ValidateLandscapeVersionM r (effLandscape f opts) (effVersion f opts)).1
          = [ApiCall.getLandscape (effLandscape f opts),
             ApiCall.getVersion (effLandscape f opts) (effVersion f opts)])
    ∧ ((ValidateLandscapeVersionM r (effLandscape f opts) (effVersion f opts)).2
          = .error () →
        (UploadM r (.ok f) opts).1.filter isListOrMutate = []) := by
  refine ⟨?_, ?_, ?_⟩
  · intro h
    rcases h with h | h
    · rw [ValidateLandscapeVersionM, if_pos h]
      exact ⟨rfl, rfl⟩
    · by_cases h1 : (r (.getLandscape (effLandscape f opts))).transport = false
      · rw [ValidateLandscapeVersionM, if_pos h1]
        exact ⟨rfl, rfl⟩
      · rw [ValidateLandscapeVersionM, if_neg h1, if_pos h]
        exact ⟨rfl, rfl⟩
  · by_cases h1 : (r (.getLandscape (effLandscape f opts))).transport = false
    · left; rw [ValidateLandscapeVersionM, if_pos h1]
    · by_cases h2 : 300 ≤ (r (.getLandscape (effLandscape f opts))).status
      · left; rw [ValidateLandscapeVersionM, if_neg h1, if_pos h2]
      · right; rw [ValidateLandscapeVersionM, if_neg h1, if_neg h2]
  · intro hfail
    simp only [UploadM]
    by_cases he : effLandscape f opts = "" ∨ effVersion f opts = ""
    · rw [if_pos he]
      rfl
    · rw [if_neg he]
      simp only [seqTrace, hfail]
      rw [List.filter_eq_nil_iff]
      intro c hc
      rcases validateM_calls r _ _ c hc with h | h <;> simp [h, isListOrMutate]

/-- Witness for C8: a remote whose landscape check returns 404 makes
the upload issue zero list, create or delete calls. -/
theorem c8_witness :
    (UploadM landscape404 (.ok exFile) exOpts).1.filter isListOrMutate = []
    ∧ (ValidateLandscapeVersionM landscape404 (effLandscape exFile exOpts)
        (effVersion exFile exOpts)).1
      = [ApiCall.getLandscape (effLandscape exFile exOpts)] := by
  have h := c8_scope_validation_failfast landscape404 exFile exOpts
  have h1 := h.1 (by right; decide)
  exact ⟨h.2.2 h1.2, h1.1⟩

end MermaidIcePanel
